import Mathlib

/-!
Verification development for the phishradar ingest-worker core:
canonicalizer, dedup decision engine, durable ingest queue, feed poller,
retry wrapper and circuit breaker, embedded shallowly from the Python
sources under services/ingest_worker/app/.
-/

set_option autoImplicit false

namespace PhishRadar

/-! ### Canonicalizer (domain.py)

`canonical_domain` relies on Python's `urllib.parse.urlparse(url).hostname`.
The stdlib behaviour is modelled here for general URLs: split a leading
scheme at the first colon when the prefix is a valid scheme token, parse a
netloc only after a literal "//", drop userinfo (text up to the last "@"),
drop the port (text from the first ":"), honour bracketed IPv6 hosts, and
lowercase the result.  A missing hostname becomes the empty string, as in
the source's `urlparse(url).hostname or ""`. -/

def isSchemeChar (c : Char) : Bool :=
  c.isAlphanum || c = '+' || c = '-' || c = '.'

/-- Drop a leading `scheme:` when the text before the first colon is a valid
scheme token (first char alphabetic, rest scheme chars); otherwise return the
input unchanged. -/
def afterScheme (s : List Char) : List Char :=
  let pre := s.takeWhile (· ≠ ':')
  match s.drop pre.length with
  | ':' :: rest =>
    match pre with
    | [] => s
    | c :: cs => if c.isAlpha && cs.all isSchemeChar then rest else s
  | _ => s

/-- The netloc: present only after a literal `//`, extending to the first
`/`, `?` or `#`. -/
def netlocOf (s : List Char) : List Char :=
  match s with
  | '/' :: '/' :: rest => rest.takeWhile (fun c => ¬(c = '/' ∨ c = '?' ∨ c = '#'))
  | _ => []

/-- Text after the last `@` (the whole string when there is none). -/
def afterLastAt (s : List Char) : List Char :=
  (s.reverse.takeWhile (· ≠ '@')).reverse

/-- Strip the port: for a bracketed IPv6 literal take the text between `[`
and `]`, otherwise take the text before the first `:`. -/
def hostOf (hostinfo : List Char) : List Char :=
  if '[' ∈ hostinfo then
    ((hostinfo.dropWhile (· ≠ '[')).drop 1).takeWhile (· ≠ ']')
  else
    hostinfo.takeWhile (· ≠ ':')

/-- Model of `urlparse(url).hostname or ""`: hostname of the netloc,
lowercased. -/
def hostnameChars (url : String) : List Char :=
  (hostOf (afterLastAt (netlocOf (afterScheme url.toList)))).map Char.toLower

/-- Model of `host.startswith("www.")` on the character list. -/
def startsWithWWW (host : List Char) : Bool :=
  match host with
  | 'w' :: 'w' :: 'w' :: '.' :: _ => true
  | _ => false

/-- Function `canonical_domain` from domain.py: hostname, lowercased, with one
leading `www.` label stripped (`host[4:]`). -/
def canonical_domain (url : String) : String :=
  let host := hostnameChars url
  String.mk (if startsWithWWW host then host.drop 4 else host)

/-! ### Dedup floors (dedup.py / config.py) -/

/-- Default of `Settings.dedup_same_domain_min_sim` (config.py). -/
def dedup_same_domain_min_sim : ℚ := 94 / 100

/-- Default of `Settings.dedup_global_min_sim` (config.py). -/
def dedup_global_min_sim : ℚ := 985 / 1000

/-- Function `is_duplicate` from dedup.py: inclusive comparison of the similarity
against the same-domain floor or the stricter global floor. -/
def is_duplicate (similarity : ℚ) (same_domain : Bool) : Bool :=
  let floor := if same_domain then dedup_same_domain_min_sim else dedup_global_min_sim
  decide (floor ≤ similarity)

end PhishRadar

namespace PhishRadar

/-- C1: for every similarity `s` in `[0,1]`, `is_duplicate` compares `s`
inclusively against the same-domain floor `0.94` when the best match is
same-domain and against the global floor `0.985` otherwise; at the exact
floor the result is `true`. -/
theorem is_duplicate_floor_spec (s : ℚ) (h0 : 0 ≤ s) (h1 : s ≤ 1) :
    (is_duplicate s true = true ↔ (94 / 100 : ℚ) ≤ s) ∧
    (is_duplicate s false = true ↔ (985 / 1000 : ℚ) ≤ s) ∧
    is_duplicate (94 / 100) true = true ∧
    is_duplicate (985 / 1000) false = true := by
  refine ⟨?_, ?_, ?_, ?_⟩ <;>
    norm_num [is_duplicate, dedup_same_domain_min_sim, dedup_global_min_sim]

theorem is_duplicate_floor_spec_witness :
    (is_duplicate (1 / 2) true = true ↔ (94 / 100 : ℚ) ≤ (1 / 2 : ℚ)) ∧
    (is_duplicate (1 / 2) false = true ↔ (985 / 1000 : ℚ) ≤ (1 / 2 : ℚ)) ∧
    is_duplicate (94 / 100) true = true ∧
    is_duplicate (985 / 1000) false = true :=
  is_duplicate_floor_spec (1 / 2) (by norm_num) (by norm_num)

/-! ### Canonicalizer laws (C7) -/

lemma takeWhile_all {α : Type} (p : α → Bool) (l : List α) (h : ∀ c ∈ l, p c = true) :
    l.takeWhile p = l :=
  List.takeWhile_eq_self_iff.mpr h

lemma map_id_of_mem {α : Type} (f : α → α) (l : List α) (h : ∀ c ∈ l, f c = c) :
    l.map f = l := by
  induction l with
  | nil => rfl
  | cons a t ih =>
    rw [List.map_cons, h a (List.mem_cons_self a t),
      ih fun c hc => h c (List.mem_cons_of_mem a hc)]

/-- A character of an already-canonical domain: no URL delimiter and stable
under lowercasing. -/
def isPlainHostChar (c : Char) : Bool :=
  decide (c ≠ '/' ∧ c ≠ '?' ∧ c ≠ '#' ∧ c ≠ ':' ∧ c ≠ '@' ∧ c ≠ '[' ∧ c ≠ ']' ∧
    c.toLower = c)

lemma hostnameChars_http (d : String)
    (h : ∀ c ∈ d.toList, isPlainHostChar c = true) :
    hostnameChars ("http://" ++ d) = d.toList := by
  have hp : ∀ c ∈ d.toList,
      c ≠ '/' ∧ c ≠ '?' ∧ c ≠ '#' ∧ c ≠ ':' ∧ c ≠ '@' ∧ c ≠ '[' ∧ c ≠ ']' ∧
        c.toLower = c :=
    fun c hc => of_decide_eq_true (h c hc)
  have hsplit : ("http://" ++ d).toList
      = 'h' :: 't' :: 't' :: 'p' :: ':' :: '/' :: '/' :: d.toList := by
    cases d ; rfl
  have hscheme : afterScheme ('h' :: 't' :: 't' :: 'p' :: ':' :: '/' :: '/' :: d.toList)
      = '/' :: '/' :: d.toList := rfl
  have hnetloc : netlocOf ('/' :: '/' :: d.toList) = d.toList := by
    show d.toList.takeWhile _ = d.toList
    exact takeWhile_all _ _ fun c hc => by
      have := hp c hc
      simp [this.1, this.2.1, this.2.2.1]
  have hat : afterLastAt d.toList = d.toList := by
    unfold afterLastAt
    rw [takeWhile_all _ _ fun c hc => ?_, List.reverse_reverse]
    have := hp c (List.mem_reverse.mp hc)
    simp [this.2.2.2.2.1]
  have hhost : hostOf d.toList = d.toList := by
    unfold hostOf
    rw [if_neg fun hmem => ((hp '[' hmem).2.2.2.2.2.1) rfl]
    exact takeWhile_all _ _ fun c hc => by simp [(hp c hc).2.2.2.1]
  unfold hostnameChars
  rw [hsplit, hscheme, hnetloc, hat, hhost]
  exact map_id_of_mem _ _ fun c hc => (hp c hc).2.2.2.2.2.2.2

/-- C7: `canonical_domain` lowercases the hostname and strips one leading
`www.` label, so it is idempotent on URLs built from an already-canonical
domain, and the host `www.www.example.com` maps to `www.example.com`. -/
theorem canonical_domain_idempotent (d : String)
    (hchars : ∀ c ∈ d.toList, isPlainHostChar c = true)
    (hwww : startsWithWWW d.toList = false) :
    canonical_domain ("http://" ++ d) = d ∧
    canonical_domain "http://www.www.example.com/a" = "www.example.com" := by
  constructor
  · show String.mk _ = d
    rw [hostnameChars_http d hchars, hwww]
    cases d ; rfl
  · decide

theorem canonical_domain_idempotent_witness :
    canonical_domain ("http://" ++ "sub.example-site.com") = "sub.example-site.com" ∧
    canonical_domain "http://www.www.example.com/a" = "www.example.com" :=
  canonical_domain_idempotent "sub.example-site.com" (by decide) (by decide)

/-! ### Dedup decision engine (dedup.py `upsert_and_check`, qdrant_client.py)

The vector store is abstracted by an environment recording the post-retry
outcome of each wrapped call.  `QErr.qdrant` stands for the qdrant API
exception types caught in dedup.py (`UnexpectedResponse`,
`ResponseHandlingException`); `QErr.other` stands for every other
exception, which dedup.py logs and re-raises. -/

inductive QErr : Type
  | qdrant
  | other
deriving DecidableEq, Repr

/-- One search hit `(id, score, payload)`; of the payload only the
`"domain"` key is ever read (`none` models an absent key). -/
structure Hit : Type where
  pid : String
  sim : ℚ
  payloadDomain : Option String
deriving DecidableEq, Repr

/-- A caller-supplied payload dict: its `"domain"` value (if any) and the
remaining keys other than `"domain"` and `"url"`. -/
structure Payload : Type where
  domain : Option String
  rest : List (String × String)
deriving DecidableEq, Repr

/-- The point handed to the store's upsert: deterministic id, the vector,
and the payload dict with `"domain"` set by the engine and `"url"` set to
the url argument. -/
structure Point : Type where
  pid : String
  vector : List ℚ
  payloadDomain : Option String
  payloadUrl : String
  payloadRest : List (String × String)
deriving DecidableEq, Repr

/-- Post-retry outcomes of the store calls made by `upsert_and_check`. -/
structure StoreEnv : Type where
  searchSame : String → Except QErr (List Hit)
  searchAll : Except QErr (List Hit)
  upsertFails : Option QErr

/-- Function `id_key` from qdrant_client.py: a deterministic UUIDv5 of the URL,
modelled as an injective deterministic tag of the URL. -/
def id_key (url : String) : String :=
  "uuid5:ns-url:" ++ url

/-- The `for src in (hits_same, hits_all)` loop of dedup.py: best hit by
strict similarity comparison, first hit winning ties. -/
def bestHit (hits : List Hit) : Option Hit :=
  hits.foldl
    (fun acc h =>
      match acc with
      | none => some h
      | some b => if b.sim < h.sim then some h else some b)
    none

/-- The search block of `upsert_and_check`: same-domain search only when
the canonical domain is nonempty, global search only when the same-domain
search returned nothing, both inside one `try`. -/
def searchPhase (domain : String) (env : StoreEnv) : Except QErr (List Hit) := do
  let hitsSame ← if domain ≠ "" then env.searchSame domain else pure []
  let hitsAll ← if hitsSame.isEmpty then env.searchAll else pure []
  pure (hitsSame ++ hitsAll)

/-- Result of `upsert_and_check`: the returned triple (or the propagated
error), the number of dead-letter records appended for the upsert
operation, and the point handed to the store's upsert (none when the
function aborted before reaching the upsert). -/
structure DedupOutcome : Type where
  result : Except QErr (Bool × ℚ × Option String)
  dlqUpsert : ℕ
  upsertedPoint : Option Point

/-- Function `upsert_and_check` from dedup.py.  Qdrant-typed search errors leave
`best = None`; other search errors propagate.  The stored payload's domain
is forcibly the canonical domain.  A failing upsert appends one dead-letter
record (qdrant_client.py `upsert`) and propagates. -/
def upsert_and_check (url : String) (vector : List ℚ) (payload : Payload)
    (env : StoreEnv) : DedupOutcome :=
  let domain := canonical_domain url
  let best : Except QErr (Option Hit) :=
    match searchPhase domain env with
    | .ok hits => .ok (bestHit hits)
    | .error .qdrant => .ok none
    | .error .other => .error .other
  match best with
  | .error e => ⟨.error e, 0, none⟩
  | .ok b =>
    let max_sim : ℚ := (b.map Hit.sim).getD 0
    let nn_domain : String :=
      match b with
      | some h => h.payloadDomain.getD ""
      | none => ""
    let same_dom : Bool :=
      match b with
      | some _ => decide (domain ≠ "" ∧ nn_domain ≠ "" ∧ domain = nn_domain)
      | none => false
    let dup := is_duplicate max_sim same_dom
    let pt : Point := ⟨id_key url, vector, some domain, url, payload.rest⟩
    match env.upsertFails with
    | some e => ⟨.error e, 1, some pt⟩
    | none => ⟨.ok (dup, max_sim, if dup then some (id_key url) else none), 0, some pt⟩

lemma is_duplicate_zero_false : is_duplicate 0 false = false := by
  simp only [is_duplicate, dedup_global_min_sim, if_neg Bool.false_ne_true,
    decide_eq_false_iff_not, not_le]
  norm_num

/-- C2 counterexample: a search failure of a non-qdrant exception kind
(e.g. a timeout) aborts `upsert_and_check` instead of being treated as
"no candidates", so the claim's unqualified "if the search raises, the
operation does not abort" is false. -/
theorem dedup_search_error_aborts :
    (upsert_and_check "http://a.com/x" [] ⟨none, []⟩
        ⟨fun _ => .error .other, .ok [], none⟩).result = .error QErr.other ∧
    (upsert_and_check "http://a.com/x" [] ⟨none, []⟩
        ⟨fun _ => .error .other, .ok [], none⟩).result ≠ .ok (false, 0, none) := by
  refine ⟨rfl, ?_⟩
  intro h
  rw [show (upsert_and_check "http://a.com/x" [] ⟨none, []⟩
      ⟨fun _ => .error .other, .ok [], none⟩).result = .error QErr.other from rfl] at h
  exact Except.noConfusion h

/-- C2 (amended): a search failure of the qdrant API exception kinds is
treated as "no candidates" and yields `(false, 0.0, None)` (when the upsert
succeeds); a failed upsert appends exactly one dead-letter record and the
error propagates, so the function never returns success when its upsert
failed.  Search failures of any other exception kind propagate instead. -/
theorem dedup_failure_semantics (url : String) (vector : List ℚ) (p : Payload)
    (env : StoreEnv) :
    (searchPhase (canonical_domain url) env = .error .qdrant →
      env.upsertFails = none →
      (upsert_and_check url vector p env).result = .ok (false, 0, none) ∧
      (upsert_and_check url vector p env).dlqUpsert = 0) ∧
    (∀ e, env.upsertFails = some e →
      searchPhase (canonical_domain url) env ≠ .error QErr.other →
      (upsert_and_check url vector p env).result = .error e ∧
      (upsert_and_check url vector p env).dlqUpsert = 1) := by
  constructor
  · intro hs hu
    simp [upsert_and_check, hs, hu, bestHit, is_duplicate_zero_false]
  · intro e hu hs
    cases hsp : searchPhase (canonical_domain url) env with
    | ok hits => simp [upsert_and_check, hsp, hu]
    | error e' =>
      cases e' with
      | qdrant => simp [upsert_and_check, hsp, hu]
      | other => exact absurd hsp hs

theorem dedup_failure_semantics_witness :
    ((upsert_and_check "http://a.com/x" [] ⟨none, []⟩
        ⟨fun _ => .error .qdrant, .ok [], none⟩).result = .ok (false, 0, none) ∧
      (upsert_and_check "http://a.com/x" [] ⟨none, []⟩
        ⟨fun _ => .error .qdrant, .ok [], none⟩).dlqUpsert = 0) ∧
    ((upsert_and_check "http://a.com/x" [] ⟨none, []⟩
        ⟨fun _ => .ok [], .ok [], some .qdrant⟩).result = .error QErr.qdrant ∧
      (upsert_and_check "http://a.com/x" [] ⟨none, []⟩
        ⟨fun _ => .ok [], .ok [], some .qdrant⟩).dlqUpsert = 1) :=
  ⟨(dedup_failure_semantics "http://a.com/x" [] ⟨none, []⟩
      ⟨fun _ => .error .qdrant, .ok [], none⟩).1 rfl rfl,
    (dedup_failure_semantics "http://a.com/x" [] ⟨none, []⟩
      ⟨fun _ => .ok [], .ok [], some .qdrant⟩).2 .qdrant rfl
      (by
        intro h
        have h' : (Except.ok [] : Except QErr (List Hit)) = .error QErr.other := h
        exact Except.noConfusion h')⟩

/-- C3: two caller payloads differing only in their `"domain"` field give
identical outcomes (same decision, same dead-letter behaviour, same
upserted point), and the point handed to the upsert always carries the
canonical domain of the URL and the deterministic id of the URL. -/
theorem payload_domain_ignored (url : String) (vector : List ℚ) (env : StoreEnv)
    (p1 p2 : Payload) (hrest : p1.rest = p2.rest) :
    upsert_and_check url vector p1 env = upsert_and_check url vector p2 env ∧
    ∀ pt, (upsert_and_check url vector p1 env).upsertedPoint = some pt →
      pt.payloadDomain = some (canonical_domain url) ∧ pt.pid = id_key url := by
  constructor
  · unfold upsert_and_check
    rw [hrest]
  · intro pt hpt
    cases hsp : searchPhase (canonical_domain url) env with
    | ok hits =>
      cases hup : env.upsertFails with
      | none =>
        simp only [upsert_and_check, hsp, hup, Option.some.injEq] at hpt
        rw [← hpt] ; exact ⟨rfl, rfl⟩
      | some e =>
        simp only [upsert_and_check, hsp, hup, Option.some.injEq] at hpt
        rw [← hpt] ; exact ⟨rfl, rfl⟩
    | error e' =>
      cases e' with
      | qdrant =>
        cases hup : env.upsertFails with
        | none =>
          simp only [upsert_and_check, hsp, hup, Option.some.injEq] at hpt
          rw [← hpt] ; exact ⟨rfl, rfl⟩
        | some e =>
          simp only [upsert_and_check, hsp, hup, Option.some.injEq] at hpt
          rw [← hpt] ; exact ⟨rfl, rfl⟩
      | other =>
        simp only [upsert_and_check, hsp] at hpt
        exact Option.noConfusion hpt

theorem payload_domain_ignored_witness :
    upsert_and_check "http://a.com/x" [1] ⟨some "evil.example", [("title", "t")]⟩
        ⟨fun _ => .ok [], .ok [], none⟩
      = upsert_and_check "http://a.com/x" [1] ⟨none, [("title", "t")]⟩
        ⟨fun _ => .ok [], .ok [], none⟩ ∧
    ∀ pt, (upsert_and_check "http://a.com/x" [1] ⟨some "evil.example", [("title", "t")]⟩
        ⟨fun _ => .ok [], .ok [], none⟩).upsertedPoint = some pt →
      pt.payloadDomain = some (canonical_domain "http://a.com/x") ∧
      pt.pid = id_key "http://a.com/x" :=
  payload_domain_ignored "http://a.com/x" [1] ⟨fun _ => .ok [], .ok [], none⟩
    ⟨some "evil.example", [("title", "t")]⟩ ⟨none, [("title", "t")]⟩ rfl

/-! ### Circuit breaker (resilience.py)

Explicit-time model: `time.monotonic()` becomes a rational argument to each
transition; the asyncio lock is irrelevant to the single-step semantics. -/

inductive CBState : Type
  | CLOSED
  | OPEN
  | HALF_OPEN
deriving DecidableEq, Repr

structure CircuitBreaker : Type where
  failure_threshold : ℕ
  recovery_time : ℚ
  failures : ℕ
  state : CBState
  opened_at : ℚ
deriving DecidableEq, Repr

/-- Constructor `CircuitBreaker.__init__`. -/
def CircuitBreaker.init (failure_threshold : ℕ) (recovery_time : ℚ) : CircuitBreaker :=
  ⟨failure_threshold, recovery_time, 0, .CLOSED, 0⟩

/-- Method `CircuitBreaker.allow`: when OPEN and the cooldown has elapsed, move to
HALF_OPEN and allow; when OPEN inside the cooldown, reject; otherwise allow. -/
def CircuitBreaker.allow (cb : CircuitBreaker) (now : ℚ) : Bool × CircuitBreaker :=
  match cb.state with
  | .OPEN =>
    if cb.recovery_time ≤ now - cb.opened_at then (true, { cb with state := .HALF_OPEN })
    else (false, cb)
  | _ => (true, cb)

/-- Method `CircuitBreaker.on_success`: reset failures, close the circuit. -/
def CircuitBreaker.on_success (cb : CircuitBreaker) : CircuitBreaker :=
  { cb with failures := 0, state := .CLOSED }

/-- Method `CircuitBreaker.on_failure`: count the failure, open at the threshold
and restart the cooldown clock. -/
def CircuitBreaker.on_failure (cb : CircuitBreaker) (now : ℚ) : CircuitBreaker :=
  let f := cb.failures + 1
  if cb.failure_threshold ≤ f then { cb with failures := f, state := .OPEN, opened_at := now }
  else { cb with failures := f }

inductive RunResult : Type
  | rejected
  | succeeded
  | failed
deriving DecidableEq, Repr

/-- Method `CircuitBreaker.run`: gate through `allow`, raise `circuit_open` without
invoking the wrapped function when rejected, otherwise invoke it and record
the outcome.  The third component tells whether the wrapped function was
invoked. -/
def CircuitBreaker.run (cb : CircuitBreaker) (now : ℚ) (callSucceeds : Bool) :
    CircuitBreaker × RunResult × Bool :=
  let gate := cb.allow now
  if gate.1 then
    if callSucceeds then (gate.2.on_success, .succeeded, true)
    else (gate.2.on_failure now, .failed, true)
  else (gate.2, .rejected, false)

/-- One failing call: the breaker state after `run` on a failure. -/
def failStep (cb : CircuitBreaker) (now : ℚ) : CircuitBreaker :=
  (cb.run now false).1

/-- Fold of consecutive failing calls at the given times. -/
def afterConsecutiveFailures (cb : CircuitBreaker) (times : List ℚ) : CircuitBreaker :=
  times.foldl failStep cb

/-- C6: from CLOSED, five consecutive failures (default threshold) open the
breaker with the cooldown clock at the last failure time; while OPEN within
`recovery_time` (default 10) every call is rejected without invoking the
wrapped function and the breaker is unchanged; once the cooldown has
elapsed the next call runs in HALF_OPEN, success returns to CLOSED with the
failure count reset to zero, and failure reopens the breaker restarting the
cooldown clock. -/
theorem circuit_breaker_spec (t1 t2 t3 t4 t5 t t' : ℚ) (s : Bool)
    (hcool : t - t5 < 10) (helapsed : 10 ≤ t' - t5) :
    afterConsecutiveFailures (CircuitBreaker.init 5 10) [t1, t2, t3, t4, t5]
      = ⟨5, 10, 5, .OPEN, t5⟩ ∧
    CircuitBreaker.run ⟨5, 10, 5, .OPEN, t5⟩ t s
      = (⟨5, 10, 5, .OPEN, t5⟩, .rejected, false) ∧
    (CircuitBreaker.allow ⟨5, 10, 5, .OPEN, t5⟩ t').1 = true ∧
    ((CircuitBreaker.allow ⟨5, 10, 5, .OPEN, t5⟩ t').2).state = .HALF_OPEN ∧
    CircuitBreaker.run ⟨5, 10, 5, .OPEN, t5⟩ t' true
      = (⟨5, 10, 0, .CLOSED, t5⟩, .succeeded, true) ∧
    CircuitBreaker.run ⟨5, 10, 5, .OPEN, t5⟩ t' false
      = (⟨5, 10, 6, .OPEN, t'⟩, .failed, true) := by
  have hnot : ¬ (10 : ℚ) ≤ t - t5 := not_le.mpr hcool
  refine ⟨?_, ?_, ?_, ?_, ?_, ?_⟩ <;>
    norm_num [afterConsecutiveFailures, failStep, CircuitBreaker.run,
      CircuitBreaker.allow, CircuitBreaker.on_failure, CircuitBreaker.on_success,
      CircuitBreaker.init, hnot, helapsed]

theorem circuit_breaker_spec_witness :
    afterConsecutiveFailures (CircuitBreaker.init 5 10) [0, 0, 0, 0, 0]
      = ⟨5, 10, 5, .OPEN, 0⟩ ∧
    CircuitBreaker.run ⟨5, 10, 5, .OPEN, 0⟩ 5 true
      = (⟨5, 10, 5, .OPEN, 0⟩, .rejected, false) ∧
    (CircuitBreaker.allow ⟨5, 10, 5, .OPEN, 0⟩ 12).1 = true ∧
    ((CircuitBreaker.allow ⟨5, 10, 5, .OPEN, 0⟩ 12).2).state = .HALF_OPEN ∧
    CircuitBreaker.run ⟨5, 10, 5, .OPEN, 0⟩ 12 true
      = (⟨5, 10, 0, .CLOSED, 0⟩, .succeeded, true) ∧
    CircuitBreaker.run ⟨5, 10, 5, .OPEN, 0⟩ 12 false
      = (⟨5, 10, 6, .OPEN, 12⟩, .failed, true) :=
  circuit_breaker_spec 0 0 0 0 0 5 12 true (by norm_num) (by norm_num)

/-! ### Durable ingest queue (ingest_queue.py)

The backing jsonl file is a list of lines; a line either parses to a row
(`some r`) or is corrupt (`none`).  `push` appends one serialized row;
`fetch` pops the first `max(0, min(limit, len(lines)))` lines, rewrites the
remainder (removing the file when nothing remains), and returns the parsed
taken lines, skipping unparseable ones. -/

def push {α : Type} (row : α) (file : List (Option α)) : List (Option α) :=
  file ++ [some row]

def fetch {α : Type} (limit : ℤ) (file : List (Option α)) :
    List α × List (Option α) :=
  if file.isEmpty then ([], file)
  else
    let toTake := (min limit (file.length : ℤ)).toNat
    ((file.take toTake).filterMap id, file.drop toTake)

/-- Popping in successive batches with the given limits, concatenating the
returned rows. -/
def popAll {α : Type} (limits : List ℤ) (file : List (Option α)) :
    List α × List (Option α) :=
  match limits with
  | [] => ([], file)
  | l :: ls =>
    let step := fetch l file
    let rest := popAll ls step.2
    (step.1 ++ rest.1, rest.2)

lemma fetch_map_some {α : Type} (l : ℤ) (rows : List α) :
    fetch l (rows.map some)
      = (rows.take (min l (rows.length : ℤ)).toNat,
          (rows.drop (min l (rows.length : ℤ)).toNat).map some) := by
  rcases rows with _ | ⟨a, t⟩
  · simp [fetch]
  · have hne : ((a :: t).map some).isEmpty = false := rfl
    unfold fetch
    rw [hne]
    simp only [Bool.false_eq_true, if_false, List.length_map]
    rw [Prod.mk.injEq]
    constructor
    · rw [← List.map_take, List.filterMap_map]
      simpa [Function.id_comp] using List.filterMap_some
        ((a :: t).take (min l ((a :: t).length : ℤ)).toNat)
    · rw [← List.map_drop]

lemma popAll_map_some {α : Type} (limits : List ℤ) (rows : List α)
    (hpos : ∀ l ∈ limits, 0 ≤ l) (hsum : (rows.length : ℤ) ≤ limits.sum) :
    popAll limits (rows.map some) = (rows, []) := by
  induction limits generalizing rows with
  | nil =>
    have : rows = [] := by
      have h0 : (rows.length : ℤ) ≤ 0 := by simpa using hsum
      have := List.length_eq_zero.mp (by exact_mod_cast le_antisymm h0 (by positivity))
      exact this
    simp [popAll, this]
  | cons l ls ih =>
    have hl : 0 ≤ l := hpos l (List.mem_cons_self l ls)
    have hsum' : (rows.length : ℤ) ≤ l + ls.sum := by simpa using hsum
    have hrec := ih (rows.drop (min l (rows.length : ℤ)).toNat)
      (fun x hx => hpos x (List.mem_cons_of_mem l hx)) ?_
    · simp only [popAll, fetch_map_some, hrec]
      rw [List.take_append_drop]
    · rw [List.length_drop]
      rcases le_total l (rows.length : ℤ) with hc | hc
      · have : (min l (rows.length : ℤ)).toNat = l.toNat := by
          rw [min_eq_left hc]
        rw [this]
        omega
      · have hzero : 0 ≤ ls.sum :=
          List.sum_nonneg fun x hx => hpos x (List.mem_cons_of_mem l hx)
        have : (min l (rows.length : ℤ)).toNat = rows.length := by
          rw [min_eq_right hc] ; exact Int.toNat_natCast _
        rw [this]
        omega

/-- C5: pushing `N` well-formed rows then popping in nonnegative batches
that cover all of them returns exactly the pushed rows in push order with
an empty backing store afterwards; a push followed by `pop(1)` returns the
one pushed row; and each pop removes the returned lines from the backing
store (the residual file it hands on is the original minus the taken
prefix). -/
lemma foldl_push_eq {α : Type} (rows : List α) (acc : List (Option α)) :
    rows.foldl (fun file row => push row file) acc = acc ++ rows.map some := by
  induction rows generalizing acc with
  | nil => simp
  | cons a t ih =>
    rw [List.foldl_cons, ih]
    show acc ++ [some a] ++ t.map some = _
    rw [List.append_assoc]
    rfl

theorem ingest_queue_fifo {α : Type} (rows : List α) (limits : List ℤ) (r : α)
    (hpos : ∀ l ∈ limits, 0 ≤ l) (hsum : (rows.length : ℤ) ≤ limits.sum) :
    rows.foldl (fun file row => push row file) [] = rows.map some ∧
    popAll limits (rows.foldl (fun file row => push row file) []) = (rows, []) ∧
    fetch 1 (push r []) = ([r], []) := by
  have h1 : rows.foldl (fun file row => push row file) [] = rows.map some := by
    simpa using foldl_push_eq rows []
  refine ⟨h1, ?_, by simp [push, fetch]⟩
  rw [h1]
  exact popAll_map_some limits rows hpos hsum

theorem ingest_queue_fifo_witness :
    ([0, 1, 2] : List ℤ).foldl (fun file row => push row file) []
      = ([0, 1, 2] : List ℤ).map some ∧
    popAll [2, 2] (([0, 1, 2] : List ℤ).foldl (fun file row => push row file) [])
      = (([0, 1, 2] : List ℤ), []) ∧
    fetch 1 (push (7 : ℤ) []) = ([7], []) :=
  ingest_queue_fifo ([0, 1, 2] : List ℤ) [2, 2] 7 (by norm_num) (by norm_num)

lemma length_filterMap_id_add {α : Type} (l : List (Option α)) :
    (l.filterMap id).length + l.countP (fun o => o.isNone) = l.length := by
  induction l with
  | nil => rfl
  | cons a t ih =>
    cases a <;> simp [List.filterMap_cons, List.countP_cons, ih] <;> omega

/-- C10: `fetch(limit)` always removes exactly the first
`min(limit, number-of-lines)` lines from the backing file, unparseable
lines included: a bad line is consumed, counts against the pop budget, and
is omitted from the returned list, while the lines after the taken prefix
stay in the file untouched. -/
theorem fetch_consumes_lines {α : Type} (limit : ℤ) (file : List (Option α))
    (hl : 0 ≤ limit) :
    (fetch limit file).2 = file.drop (min limit (file.length : ℤ)).toNat ∧
    (fetch limit file).1 = (file.take (min limit (file.length : ℤ)).toNat).filterMap id ∧
    (fetch limit file).1.length
        + (file.take (min limit (file.length : ℤ)).toNat).countP (fun o => o.isNone)
      = (min limit (file.length : ℤ)).toNat := by
  refine ⟨?_, ?_, ?_⟩
  · rcases file with _ | ⟨a, t⟩
    · simp [fetch]
    · rfl
  · rcases file with _ | ⟨a, t⟩
    · simp [fetch]
    · rfl
  · have h2 : (fetch limit file).1
        = (file.take (min limit (file.length : ℤ)).toNat).filterMap id := by
      rcases file with _ | ⟨a, t⟩
      · simp [fetch]
      · rfl
    rw [h2]
    have h3 := length_filterMap_id_add (file.take (min limit (file.length : ℤ)).toNat)
    have h4 : (file.take (min limit (file.length : ℤ)).toNat).length
        = (min limit (file.length : ℤ)).toNat := by
      rw [List.length_take]
      exact Nat.min_eq_left (by omega)
    omega

theorem fetch_consumes_lines_witness :
    (fetch 2 [some 1, none, some 3]).2
      = ([some 1, none, some 3] : List (Option ℕ)).drop
          (min 2 (([some 1, none, some 3] : List (Option ℕ)).length : ℤ)).toNat ∧
    (fetch 2 [some 1, none, some 3]).1
      = (([some 1, none, some 3] : List (Option ℕ)).take
          (min 2 (([some 1, none, some 3] : List (Option ℕ)).length : ℤ)).toNat).filterMap id ∧
    (fetch 2 ([some 1, none, some 3] : List (Option ℕ))).1.length
        + (([some 1, none, some 3] : List (Option ℕ)).take
            (min 2 (([some 1, none, some 3] : List (Option ℕ)).length : ℤ)).toNat).countP
          (fun o => o.isNone)
      = (min 2 (([some 1, none, some 3] : List (Option ℕ)).length : ℤ)).toNat :=
  fetch_consumes_lines 2 [some 1, none, some 3] (by norm_num)

/-! ### Feed poller (feed_poller.py `_poll_once`)

One poll cycle over an already-merged batch of feed items.  The seen cache
(`SeenCache.mark_if_new`, keyed by a content hash of the raw URL) is
modelled as a set of raw URLs, the hash being a collision-free tag of the
URL; queue pushes always succeed.  The loop keeps a batch-local exact-URL
set (first occurrence wins), consults the seen cache unless `force`, builds
the row with the canonical domain, and stops once `new_count >=
max(0, limit)` is checked after a push. -/

structure FeedItem : Type where
  url : String
  source : String
deriving DecidableEq, Repr

structure QueueRow : Type where
  url : String
  domain : String
  title : String
  ts : ℤ
  src : String
deriving DecidableEq, Repr

def pollLoop (force : Bool) (limit : Option ℤ) (now : ℤ) :
    List FeedItem → List String → List String → List QueueRow →
      List QueueRow × List String
  | [], _, cache, acc => (acc.reverse, cache)
  | it :: rest, seenLocal, cache, acc =>
    if it.url = "" ∨ it.url ∈ seenLocal then
      pollLoop force limit now rest seenLocal cache acc
    else if ¬force ∧ it.url ∈ cache then
      pollLoop force limit now rest (it.url :: seenLocal) cache acc
    else
      let cache' := if force then cache else it.url :: cache
      let dom := canonical_domain it.url
      let acc' := (⟨it.url, dom, dom, now, it.source⟩ : QueueRow) :: acc
      match limit with
      | some l =>
        if max 0 l ≤ (acc'.length : ℤ) then (acc'.reverse, cache')
        else pollLoop force limit now rest (it.url :: seenLocal) cache' acc'
      | none => pollLoop force limit now rest (it.url :: seenLocal) cache' acc'

/-- Method `_poll_once` on a merged batch: returns the enqueued rows in push order
and the final seen-cache contents. -/
def poll_once (items : List FeedItem) (seen : List String) (force : Bool)
    (limit : Option ℤ) (now : ℤ) : List QueueRow × List String :=
  pollLoop force limit now items [] seen []

/-- C4 counterexample: with the merged batch
`["http://Example.com/a", "http://www.example.com/a"]` and nothing
previously seen, `_poll_once` enqueues two rows with domain
`"example.com"`, not one: batch-local dedup and the seen cache both key on
the exact raw URL, and the two URLs differ as strings. -/
theorem poll_scenario_not_one_row :
    ((poll_once [⟨"http://Example.com/a", "openphish"⟩,
          ⟨"http://www.example.com/a", "openphish"⟩] [] false none 0).1.filter
        (fun r => r.domain = "example.com")).length = 2 ∧
    ((poll_once [⟨"http://Example.com/a", "openphish"⟩,
          ⟨"http://www.example.com/a", "openphish"⟩] [] false none 0).1.filter
        (fun r => r.domain = "example.com")).length ≠ 1 := by
  constructor
  · decide
  · decide

/-- C4 (amended): on that batch `_poll_once` enqueues exactly two rows,
each with domain `"example.com"`. -/
theorem poll_scenario_two_rows :
    (poll_once [⟨"http://Example.com/a", "openphish"⟩,
        ⟨"http://www.example.com/a", "openphish"⟩] [] false none 0).1.map
      QueueRow.domain = ["example.com", "example.com"] := by
  decide

lemma pollLoop_length_le (force : Bool) (l : ℤ) (now : ℤ) (items : List FeedItem) :
    ∀ (seenLocal cache : List String) (acc : List QueueRow),
      ((pollLoop force (some l) now items seenLocal cache acc).1.length : ℤ)
        ≤ max ((acc.length : ℤ) + 1) (max 0 l) := by
  induction items with
  | nil =>
    intro seenLocal cache acc
    simp only [pollLoop, List.length_reverse]
    omega
  | cons it rest ih =>
    intro seenLocal cache acc
    by_cases h1 : it.url = "" ∨ it.url ∈ seenLocal
    · rw [pollLoop, if_pos h1]
      exact ih seenLocal cache acc
    · by_cases h2 : ¬force ∧ it.url ∈ cache
      · rw [pollLoop, if_neg h1, if_pos h2]
        exact ih (it.url :: seenLocal) cache acc
      · rw [pollLoop, if_neg h1, if_neg h2]
        simp only
        by_cases h3 : max 0 l
            ≤ (((⟨it.url, canonical_domain it.url, canonical_domain it.url, now,
                it.source⟩ : QueueRow) :: acc).length : ℤ)
        · rw [if_pos h3]
          simp only [List.length_reverse, List.length_cons]
          push_cast
          omega
        · rw [if_neg h3]
          have hb := ih (it.url :: seenLocal)
            (if force then cache else it.url :: cache)
            ((⟨it.url, canonical_domain it.url, canonical_domain it.url, now,
              it.source⟩ : QueueRow) :: acc)
          simp only [List.length_cons] at hb h3 ⊢
          push_cast at hb h3 ⊢
          omega

/-- C9 (amended): for every limit `L >= 1` one `_poll_once(limit=L)`
invocation enqueues at most `L` rows; the cap fails only at `L = 0`, where
the check `new_count >= max(0, limit)` runs after the first enqueue, so one
row may still be enqueued. -/
theorem poll_limit_caps (items : List FeedItem) (seen : List String) (force : Bool)
    (L : ℤ) (now : ℤ) (hL : 1 ≤ L) :
    ((poll_once items seen force (some L) now).1.length : ℤ) ≤ L := by
  have hb := pollLoop_length_le force L now items [] seen []
  simp only [List.length_nil] at hb
  unfold poll_once
  omega

theorem poll_limit_caps_witness :
    ((poll_once [⟨"http://a.com/x", "openphish"⟩, ⟨"http://b.com/y", "openphish"⟩]
        [] false (some 1) 0).1.length : ℤ) ≤ 1 :=
  poll_limit_caps [⟨"http://a.com/x", "openphish"⟩, ⟨"http://b.com/y", "openphish"⟩]
    [] false 1 0 (by norm_num)

/-- C9 counterexample: `_poll_once(limit=0)` still enqueues one row when an
item survives the filters, because the cap is only checked after a push. -/
theorem poll_limit_zero_enqueues_one :
    (poll_once [⟨"http://a.com/x", "openphish"⟩] [] false (some 0) 0).1.length = 1 ∧
    ¬ ((poll_once [⟨"http://a.com/x", "openphish"⟩] [] false
        (some 0) 0).1.length : ℤ) ≤ 0 := by
  constructor
  · decide
  · decide

/-! ### Retry wrapper (qdrant_client.py `_call` via tenacity)

`stop_after_attempt(n)` with `reraise=True`: attempts are numbered from 0;
the wrapped function's outcome at attempt `i` is `f i`; after the `n`-th
failed attempt the last error is re-raised.  Backoff delays and jitter only
affect timing, not the result.  The second component counts how many times
the underlying function was invoked. -/

def retryAux {E A : Type} (f : ℕ → Except E A) (i : ℕ) : ℕ → Except E A × ℕ
  | 0 => (f i, i + 1)
  | n + 1 =>
    match f i with
    | .ok a => (.ok a, i + 1)
    | .error _ => retryAux f (i + 1) n

/-- The retry-wrapped call with `maxAttempts` attempts (`retry_max_attempts`
defaults to 5 in config.py). -/
def callWithRetry {E A : Type} (maxAttempts : ℕ) (f : ℕ → Except E A) :
    Except E A × ℕ :=
  retryAux f 0 (maxAttempts - 1)

/-- Method `QdrantStore.upsert`: the retried call, plus one dead-letter record
written when the call has terminally failed, before the error propagates.
Components: result, invocation count, dead-letter record count. -/
def upsertWithRetry {E : Type} (maxAttempts : ℕ) (f : ℕ → Except E Unit) :
    Except E Unit × ℕ × ℕ :=
  let r := callWithRetry maxAttempts f
  match r.1 with
  | .ok _ => (r.1, r.2, 0)
  | .error _ => (r.1, r.2, 1)

/-- C8: a call failing once then succeeding returns the success with the
underlying function invoked twice (hence at least twice); a call failing on
every attempt re-raises the original error after exactly 5 attempts
(default `retry_max_attempts`), and for the upsert operation exactly one
dead-letter record is appended. -/
theorem retry_spec {E A : Type} (f g : ℕ → Except E A) (u : ℕ → Except E Unit)
    (e : E) (a : A)
    (hf0 : f 0 = .error e) (hf1 : f 1 = .ok a)
    (hg : ∀ i, g i = .error e) (hu : ∀ i, u i = .error e) :
    callWithRetry 5 f = (.ok a, 2) ∧
    callWithRetry 5 g = (.error e, 5) ∧
    upsertWithRetry 5 u = (.error e, 5, 1) := by
  refine ⟨?_, ?_, ?_⟩
  · show retryAux f 0 4 = (.ok a, 2)
    rw [retryAux, hf0]
    rw [retryAux, hf1]
  · show retryAux g 0 4 = (.error e, 5)
    rw [retryAux, hg 0, retryAux, hg 1, retryAux, hg 2, retryAux, hg 3, retryAux, hg 4]
  · show upsertWithRetry 5 u = (.error e, 5, 1)
    have hc : callWithRetry 5 u = (.error e, 5) := by
      show retryAux u 0 4 = (.error e, 5)
      rw [retryAux, hu 0, retryAux, hu 1, retryAux, hu 2, retryAux, hu 3, retryAux, hu 4]
    simp [upsertWithRetry, hc]

theorem retry_spec_witness :
    callWithRetry 5 (fun i => if i = 0 then .error "boom" else .ok 7)
      = ((.ok 7 : Except String ℕ), 2) ∧
    callWithRetry 5 (fun _ => (.error "boom" : Except String ℕ)) = (.error "boom", 5) ∧
    upsertWithRetry 5 (fun _ => (.error "boom" : Except String Unit))
      = (.error "boom", 5, 1) :=
  retry_spec (fun i => if i = 0 then .error "boom" else .ok 7)
    (fun _ => .error "boom") (fun _ => .error "boom") "boom" 7
    rfl rfl (fun _ => rfl) (fun _ => rfl)

end PhishRadar
